import Mathlib

/-!
Verification of the tfsort list-sorting engine (internal/sorter/list_sorter.go).

The development shallowly embeds the token-level list sorter: tokens are a
type tag plus raw bytes (bytes as lists of natural numbers below 256), list
elements carry leading comments, content tokens, a byte sort key and an
optional parsed numeric value, and the pipeline functions are transcribed
from the Go source one by one.  `sort.SliceStable` is modelled by Mathlib's
stable insertion sort with the non-strict relation derived from the strict
comparator, `bytes.Compare == -1` by lexicographic byte order, and
`ctyjson.Unmarshal(_, cty.Number)` by a strict JSON-number parser into the
exact-decimal type `Dec` (an integer mantissa scaled by a power of ten,
compared exactly as `big.Float.Cmp` compares the parsed constants).
Go's `strings.TrimSpace` is modelled on ASCII whitespace bytes, which is
exact for the byte content this tool manipulates.
-/

namespace Tfsort

/-- Token kinds used by the sorter (hclsyntax token types that the Go code
inspects, plus a catch-all for every other kind). -/
inductive TokType where
  | obrack | cbrack | obrace | cbrace | oparen | cparen
  | comma | comment | newline | tabs | numberLit | ident
  | oquote | cquote | quotedLit
  | otherTok
deriving DecidableEq, Repr

/-- A lexical token: kind plus exact source bytes (hclwrite.Token). -/
structure Token where
  ttype : TokType
  bytes : List Nat
deriving DecidableEq, Repr

/-- A token sequence (hclwrite.Tokens). -/
abbrev Tokens := List Token

/-- Default token used for out-of-range indexing (the Go code only indexes
under guards that make the default irrelevant). -/
def dTok : Token := ⟨TokType.otherTok, []⟩

/-- A synthesized newline token (hclwrite.Token{Type: TokenNewline}). -/
def nlTok : Token := ⟨TokType.newline, [10]⟩

/-- A synthesized comma token (hclwrite.Token{Type: TokenComma}). -/
def commaTok : Token := ⟨TokType.comma, [44]⟩

/-- An exact decimal number: the value mant times ten to the exp.  This is
the shallow embedding of the arbitrary-precision number a numeric-literal
token parses into (cty.Number); the bridge lemmas below prove that decCmp
compares true rational magnitudes. -/
structure Dec where
  mant : Int
  exp : Int
deriving DecidableEq, Repr

/-- Rational value denoted by a Dec. -/
def decVal (x : Dec) : ℚ := (x.mant : ℚ) * (10 : ℚ) ^ x.exp

/-- Three-way magnitude comparison of two decimals (big.Float Cmp): scale
the side with the larger exponent to a common power of ten and compare
integer mantissas. -/
def decCmp (a b : Dec) : Ordering :=
  let d := a.exp - b.exp
  let x := if 0 ≤ d then a.mant * 10 ^ d.toNat else a.mant
  let y := if 0 ≤ d then b.mant else b.mant * 10 ^ (-d).toNat
  if x < y then Ordering.lt else if x = y then Ordering.eq else Ordering.gt

/-- One list element (the Go listElement struct).  `num` models the pair
(CtyValue, IsNumber): `some v` when IsNumber is true with parsed value v. -/
structure ListElement where
  leadingComments : Tokens
  tokens : Tokens
  key : List Nat
  num : Option Dec
deriving DecidableEq, Repr

/-- Whitespace-or-newline token test (TokenNewline or TokenTabs). -/
def isWsTok (t : Token) : Bool :=
  decide (t.ttype = TokType.newline ∨ t.ttype = TokType.tabs)

/-- Drop leading TokenNewline/TokenTabs tokens. -/
def dropLeadingWs (ts : Tokens) : Tokens := ts.dropWhile isWsTok

/-- Drop trailing TokenNewline/TokenTabs tokens. -/
def dropTrailingWs (ts : Tokens) : Tokens := (ts.reverse.dropWhile isWsTok).reverse

/-- Lexicographic byte order: models `bytes.Compare(a, b) == -1`. -/
def lexLt : List Nat → List Nat → Bool
  | [], [] => false
  | [], _ :: _ => true
  | _ :: _, [] => false
  | a :: as, b :: bs => if a < b then true else if b < a then false else lexLt as bs

/-- ASCII whitespace byte (space, tab, newline, carriage return, vertical
tab, form feed), modelling Go's `strings.TrimSpace` character class on the
ASCII range. -/
def isSpaceByte (b : Nat) : Bool :=
  b = 32 || b = 9 || b = 10 || b = 13 || b = 11 || b = 12

/-- Trim ASCII whitespace from both ends of a byte sequence. -/
def trimSpace (bs : List Nat) : List Nat :=
  ((bs.dropWhile isSpaceByte).reverse.dropWhile isSpaceByte).reverse

/-- Does `bs` start with the byte sequence `p` (strings.HasPrefix)? -/
def bytesStartWith (p bs : List Nat) : Bool := decide (bs.take p.length = p)

/-- The bytes of the ignore sentinel string tfsort:ignore. -/
def ignoreSentinel : List Nat := [116, 102, 115, 111, 114, 116, 58, 105, 103, 110, 111, 114, 101]

/-- Normalize a comment token's bytes the way checkIgnoreDirective does:
trim whitespace, strip a leading slash-slash or hash marker, trim again. -/
def commentDirectiveBody (bs : List Nat) : List Nat :=
  let c := trimSpace bs
  if bytesStartWith [47, 47] c then trimSpace (c.drop 2)
  else if bytesStartWith [35] c then trimSpace (c.drop 1)
  else c

/-- checkIgnoreDirective: scans the inner tokens of a list; whitespace and
newlines are skipped; the first comment decides (true exactly when its
normalized body is the sentinel); any other token means no directive. -/
def checkIgnoreDirective : Tokens → Bool
  | [] => false
  | t :: rest =>
    if t.ttype = TokType.comment then
      decide (commentDirectiveBody t.bytes = ignoreSentinel)
    else if t.ttype ≠ TokType.tabs ∧ t.ttype ≠ TokType.newline then false
    else checkIgnoreDirective rest

/-- Decimal digit byte. -/
def isDigit (b : Nat) : Bool := 48 ≤ b && b ≤ 57

/-- Value of a list of decimal digit bytes. -/
def digitsToNat (ds : List Nat) : Nat := ds.foldl (fun acc d => acc * 10 + (d - 48)) 0

/-- Exponent part of a JSON number ('e'/'E', optional sign, digits); the
whole remaining input must be consumed. -/
def parseExpPart (mant scale : Int) (r : List Nat) : Option Dec :=
  match r with
  | [] => some ⟨mant, scale⟩
  | 101 :: rest => parseExpTail mant scale rest
  | 69 :: rest => parseExpTail mant scale rest
  | _ => none
where
  parseExpTail (mant scale : Int) (rest : List Nat) : Option Dec :=
    let (esgn, r2) : Int × List Nat :=
      match rest with
      | 43 :: r' => (1, r')
      | 45 :: r' => (-1, r')
      | _ => (1, rest)
    let ds := r2.takeWhile isDigit
    if ds = [] ∨ r2.dropWhile isDigit ≠ [] then none
    else some ⟨mant, scale + esgn * (digitsToNat ds : Int)⟩

/-- Fraction part ('.' digits) followed by the exponent part; the fraction
digits are folded into the mantissa with a matching negative scale. -/
def parseFracThenExp (sgn : Int) (ip : Nat) (r : List Nat) : Option Dec :=
  match r with
  | 46 :: rest =>
    let fd := rest.takeWhile isDigit
    if fd = [] then none
    else
      parseExpPart (sgn * ((ip : Int) * 10 ^ fd.length + (digitsToNat fd : Int)))
        (-(fd.length : Int)) (rest.dropWhile isDigit)
  | _ => parseExpPart (sgn * (ip : Int)) 0 r

/-- Integer part of a JSON number: a single zero, or a nonzero digit
followed by digits (leading zeros are rejected, as in JSON). -/
def parseIntPart (sgn : Int) (r : List Nat) : Option Dec :=
  match r with
  | [] => none
  | 48 :: rest => parseFracThenExp sgn 0 rest
  | d :: rest =>
    if isDigit d then
      parseFracThenExp sgn (digitsToNat (d :: rest.takeWhile isDigit)) (rest.dropWhile isDigit)
    else none

/-- Strict JSON number parser into an exact decimal; models
`ctyjson.Unmarshal(bytes, cty.Number)` succeeding with the parsed value. -/
def parseJsonNumber (bs : List Nat) : Option Dec :=
  match bs with
  | 45 :: r1 => parseIntPart (-1) r1
  | _ => parseIntPart 1 bs

/-- extractPrimaryTokenBytes: concatenated bytes of the element tokens as
the sort key; when the element is exactly one TokenNumberLit token that
parses as a number, the parsed value; the final component is the success
flag (false only for an empty token slice). -/
def extractPrimaryTokenBytes (elementTokens : Tokens) : List Nat × Option Dec × Bool :=
  match elementTokens with
  | [] => ([], none, false)
  | _ =>
    let key := (elementTokens.map Token.bytes).flatten
    match elementTokens with
    | [t] =>
      if t.ttype = TokType.numberLit then
        match parseJsonNumber t.bytes with
        | some v => (key, some v, true)
        | none => (key, none, true)
      else (key, none, true)
    | _ => (key, none, true)

/-- Leading tokens accumulated into leadingComments (newline, tabs,
comment). -/
def isLeadTok (t : Token) : Bool :=
  decide (t.ttype = TokType.newline ∨ t.ttype = TokType.tabs ∨ t.ttype = TokType.comment)

/-- parseSingleElement: strip one trailing structural comma (looking past
trailing whitespace), split off leading whitespace/comment tokens, trim
trailing whitespace from the content, and build the element.  Returns
(element, isEmpty, ok); ok is the success flag, which this implementation
always reports as true. -/
def parseSingleElement (raw : Tokens) : Option ListElement × Bool × Bool :=
  let pre := dropTrailingWs raw
  let toProcess :=
    match pre.getLast? with
    | some t => if t.ttype = TokType.comma then pre.dropLast else raw
    | none => raw
  let leading := toProcess.takeWhile isLeadTok
  let content := toProcess.dropWhile isLeadTok
  let finalContent := dropTrailingWs content
  if finalContent = [] ∧ leading = [] then (none, true, true)
  else
    let ex := extractPrimaryTokenBytes finalContent
    (some ⟨leading, finalContent, ex.1, ex.2.1⟩, decide (finalContent = []), true)

/-- Tokens pulled into the current element right after a top-level comma
(TokenTabs or TokenComment). -/
def isPullTok (t : Token) : Bool :=
  decide (t.ttype = TokType.tabs ∨ t.ttype = TokType.comment)

/-- Nesting delta of a token for brace/bracket/paren depth tracking. -/
def levelStep (level : Int) (t : Token) : Int :=
  if t.ttype = TokType.obrace ∨ t.ttype = TokType.obrack ∨ t.ttype = TokType.oparen then
    level + 1
  else if t.ttype = TokType.cbrace ∨ t.ttype = TokType.cbrack ∨ t.ttype = TokType.cparen then
    level - 1
  else level

/-- Flush the slice gathered for one element: parse it and append the
element when it is non-empty; `none` on parse failure. -/
def flushElem (current : Tokens) (acc : List ListElement) : Option (List ListElement) :=
  match parseSingleElement current with
  | (_, _, false) => none
  | (some e, false, true) => some (acc ++ [e])
  | (_, _, true) => some acc

/-- Loop body of extractSimpleListElements: walk the inner tokens, split at
depth-zero commas, and flush the final element at the end of the slice.
The Go loop advances its index in place to pull the whitespace/comment run
straight after a top-level comma into the finished element; that in-place
advance is modelled by the boolean pulling state, which gathers the run
into `current` and flushes when it ends. -/
def extractLoop : Bool → Tokens → Int → Tokens → List ListElement → List ListElement × Bool
  | false, [], _, _, acc => (acc, true)
  | true, [], _, current, acc =>
    (match flushElem current acc with
     | none => ([], false)
     | some acc' => (acc', true))
  | true, tok :: rest, level, current, acc =>
    if isPullTok tok = true then extractLoop true rest level (current ++ [tok]) acc
    else
      (match flushElem current acc with
       | none => ([], false)
       | some acc' =>
         let level' := levelStep level tok
         if level' = 0 ∧ tok.ttype = TokType.comma then extractLoop true rest level' [tok] acc'
         else if rest = [] then
           (match flushElem [tok] acc' with
            | none => ([], false)
            | some acc'' => (acc'', true))
         else extractLoop false rest level' [tok] acc')
  | false, tok :: rest, level, current, acc =>
    let level' := levelStep level tok
    if level' = 0 ∧ tok.ttype = TokType.comma then
      extractLoop true rest level' (current ++ [tok]) acc
    else if rest = [] then
      (match flushElem (current ++ [tok]) acc with
       | none => ([], false)
       | some acc' => (acc', true))
    else extractLoop false rest level' (current ++ [tok]) acc

/-- extractSimpleListElements: split the inner tokens of a list (brackets
excluded) into elements at top-level commas. -/
def extractSimpleListElements (innerTokens : Tokens) : List ListElement × Bool :=
  extractLoop false innerTokens 0 [] []

/-- compareListElements: numeric elements first (between two numerics, by
magnitude then byte key); otherwise lexicographic byte-key order. -/
def compareListElements (elemI elemJ : ListElement) : Bool :=
  match elemI.num, elemJ.num with
  | some valI, some valJ =>
    let cmpResult := decCmp valI valJ
    if cmpResult ≠ Ordering.eq then decide (cmpResult = Ordering.lt)
    else lexLt elemI.key elemJ.key
  | some _, none => true
  | none, some _ => false
  | none, none => lexLt elemI.key elemJ.key

/-- sortListElements: stable sort by compareListElements (sort.SliceStable
modelled as stable insertion sort with the derived non-strict relation),
plus position-by-position key comparison for change detection. -/
def sortListElements (elements : List ListElement) : List ListElement × Bool :=
  let sorted := List.insertionSort (fun a b => compareListElements b a = false) elements
  (sorted, decide (elements.map ListElement.key ≠ sorted.map ListElement.key))

/-- hasComments: does any element's content token list hold a comment? -/
def hasComments (elements : List ListElement) : Bool :=
  elements.any fun e => e.tokens.any fun t => t.ttype == TokType.comment

/-- separateValueAndCommentTokens: stable partition of an element's tokens
into non-comment value tokens and comment tokens. -/
def separateValueAndCommentTokens (tokens : Tokens) : Tokens × Tokens :=
  (tokens.filter (fun t => !(t.ttype == TokType.comment)),
   tokens.filter (fun t => t.ttype == TokType.comment))

/-- endsWithComma: is the last token a comma? -/
def endsWithComma (tokens : Tokens) : Bool :=
  match tokens.getLast? with
  | some t => t.ttype == TokType.comma
  | none => false

/-- ensureTrailingNewline: a newline token to append unless the stream is
empty or already ends with a newline token or a comment ending in a newline
byte. -/
def ensureTrailingNewline (tokens : Tokens) : Tokens :=
  match tokens.getLast? with
  | none => []
  | some last =>
    if last.ttype = TokType.newline ∨
        (last.ttype = TokType.comment ∧ last.bytes.getLast? = some 10) then []
    else [nlTok]

/-- processElementForCommentedList: emission of one element in the
comment-aware rebuild: cleaned leading comments (leading newline tokens are
dropped for non-first elements), value tokens, a structural comma when the
value does not end in one and the element is not last, the comment tokens,
and a newline when there are no comment tokens. -/
def processElementForCommentedList (elem : ListElement) (index total : Nat) : Tokens :=
  let cleaned :=
    if index > 0 then elem.leadingComments.dropWhile (fun t => t.ttype == TokType.newline)
    else elem.leadingComments
  let vc := separateValueAndCommentTokens elem.tokens
  cleaned ++ vc.1
    ++ (if ¬ endsWithComma vc.1 = true ∧ index < total - 1 then [commaTok] else [])
    ++ vc.2
    ++ (if vc.2 = [] then [nlTok] else [])

/-- Indexed emission of a list of elements: apply `f` to each element with
its running index and concatenate. -/
def emitElems (f : ListElement → Nat → Tokens) : List ListElement → Nat → Tokens
  | [], _ => []
  | e :: rest, i => f e i ++ emitElems f rest (i + 1)

/-- rebuildCommentedListTokens: open bracket, a newline when there are
elements, each element's emission, a trailing-newline fix, and the close
bracket. -/
def rebuildCommentedListTokens (elements : List ListElement) (openB closeB : Token) : Tokens :=
  let base := [openB] ++ (if 0 < elements.length then [nlTok] else [])
  let withElems :=
    base ++ emitElems (fun e i => processElementForCommentedList e i elements.length) elements 0
  withElems ++ ensureTrailingNewline withElems ++ [closeB]

/-- isMultiLineList: does any element carry a newline token in its leading
comments or content tokens? -/
def isMultiLineList (elements : List ListElement) : Bool :=
  elements.any fun e => (e.leadingComments ++ e.tokens).any fun t => t.ttype == TokType.newline

/-- removeLeadingNewlines. -/
def removeLeadingNewlines (tokens : Tokens) : Tokens :=
  tokens.dropWhile fun t => t.ttype == TokType.newline

/-- buildInnerTokensForUncommentedList: each element's leading comments
(first element's leading newlines removed in multi-line mode), its content
tokens, and a comma after every element but the last. -/
def buildInnerTokensForUncommentedList
    (elements : List ListElement) (willBeMultiLine : Bool) : Tokens :=
  emitElems
    (fun e i =>
      (if i = 0 ∧ willBeMultiLine = true then removeLeadingNewlines e.leadingComments
       else e.leadingComments)
      ++ e.tokens
      ++ (if i < elements.length - 1 then [commaTok] else []))
    elements 0

/-- determineMultiLineStatus: newline in the rebuilt inner tokens, or (when
the rebuilt inner tokens are empty) in the original inner tokens. -/
def determineMultiLineStatus (newInner origInner : Tokens) : Bool :=
  if newInner.any (fun t => t.ttype == TokType.newline) then true
  else if newInner = [] ∧ origInner ≠ [] then
    origInner.any fun t => t.ttype == TokType.newline
  else false

/-- endsWithMeaningfulComma: looking past trailing newline/tabs tokens, is
the last token a comma? -/
def endsWithMeaningfulComma (tokens : Tokens) : Bool :=
  match (dropTrailingWs tokens).getLast? with
  | some t => t.ttype == TokType.comma
  | none => false

/-- endsWithNewline: does the trailing token list (or, when it is empty,
the inner token list) end with a newline token? -/
def endsWithNewline (trailingTokens innerTokens : Tokens) : Bool :=
  match trailingTokens.getLast? with
  | some t => t.ttype == TokType.newline
  | none =>
    match innerTokens.getLast? with
    | some t => t.ttype == TokType.newline
    | none => false

/-- addTrailingFormatting: trailing comma and newline for multi-line
lists. -/
def addTrailingFormatting (innerTokens : Tokens) : Tokens :=
  if innerTokens = [] then []
  else
    let t1 := if ¬ endsWithMeaningfulComma innerTokens = true then [commaTok] else []
    let t2 := if ¬ endsWithNewline t1 innerTokens = true then [nlTok] else []
    t1 ++ t2

/-- constructFinalTokenList: open bracket, opening newline for non-empty
multi-line lists, the inner tokens, trailing formatting for multi-line
lists, close bracket. -/
def constructFinalTokenList
    (innerTokens : Tokens) (openB closeB : Token) (isMultiLine : Bool) : Tokens :=
  [openB]
    ++ (if isMultiLine = true ∧ innerTokens ≠ [] then [nlTok] else [])
    ++ innerTokens
    ++ (if isMultiLine = true then addTrailingFormatting innerTokens else [])
    ++ [closeB]

/-- rebuildListTokensFromElements (comment-free rebuild path). -/
def rebuildListTokensFromElements
    (sortedElements : List ListElement) (originalInnerTokens : Tokens)
    (openB closeB : Token) : Tokens :=
  let willBeMultiLine := isMultiLineList sortedElements
  let newInner := buildInnerTokensForUncommentedList sortedElements willBeMultiLine
  constructFinalTokenList newInner openB closeB (determineMultiLineStatus newInner originalInnerTokens)

/-- isValidListStructure: at least two tokens, starting with an open
bracket and ending with a close bracket. -/
def isValidListStructure (tokens : Tokens) : Bool :=
  decide (2 ≤ tokens.length
    ∧ (tokens.headD dTok).ttype = TokType.obrack
    ∧ (tokens.getLastD dTok).ttype = TokType.cbrack)

/-- Inner tokens of a bracketed list: everything strictly between the first
and last token. -/
def innerOf (ts : Tokens) : Tokens := (ts.drop 1).dropLast

/-- Elements extracted from the inner tokens of a bracketed list. -/
def extractedOf (ts : Tokens) : List ListElement :=
  (extractSimpleListElements (innerOf ts)).1

/-- The extracted elements after the stable sort. -/
def sortedOf (ts : Tokens) : List ListElement := (sortListElements (extractedOf ts)).1

/-- trySortSimpleListTokens: validate the bracket structure, honor the
ignore directive, extract and sort the elements, detect change, and rebuild
through the comment-aware or comment-free path. -/
def trySortSimpleListTokens (tokens : Tokens) : Tokens × Bool :=
  if ¬ isValidListStructure tokens = true then (tokens, false)
  else
    let innerTokens := innerOf tokens
    if innerTokens = [] ∨ checkIgnoreDirective innerTokens = true then (tokens, false)
    else
      let ex := extractSimpleListElements innerTokens
      if ¬ ex.2 = true ∨ ex.1.length ≤ 1 then (tokens, false)
      else
        let sr := sortListElements ex.1
        if ¬ sr.2 = true then (tokens, false)
        else if hasComments sr.1 = true then
          (rebuildCommentedListTokens sr.1 (tokens.headD dTok) (tokens.getLastD dTok), true)
        else
          (rebuildListTokensFromElements sr.1 innerTokens
            (tokens.headD dTok) (tokens.getLastD dTok), true)

/-- checkSimpleListLiteral: after skipping leading and trailing
whitespace/newline tokens, a bracket-enclosed sequence of at least two
tokens. -/
def checkSimpleListLiteral (tokens : Tokens) : Option Tokens :=
  let mid := dropTrailingWs (dropLeadingWs tokens)
  if 2 ≤ mid.length
      ∧ (mid.headD dTok).ttype = TokType.obrack
      ∧ (mid.getLastD dTok).ttype = TokType.cbrack then some mid
  else none

/-- The bytes of the wrapper function name toset. -/
def tosetBytes : List Nat := [116, 111, 115, 101, 116]

/-- checkTosetListCall: exactly ident(toset), open paren, open bracket,
..., close bracket, close paren; returns the bracketed inner part. -/
def checkTosetListCall : Tokens → Option Tokens
  | t0 :: t1 :: t2 :: t3 :: t4 :: rest =>
    let all : Tokens := t0 :: t1 :: t2 :: t3 :: t4 :: rest
    if t0.ttype = TokType.ident ∧ t0.bytes = tosetBytes
        ∧ t1.ttype = TokType.oparen ∧ t2.ttype = TokType.obrack
        ∧ (all.getLastD dTok).ttype = TokType.cparen
        ∧ ((all.dropLast).getLastD dTok).ttype = TokType.cbrack then
      some ((all.drop 2).dropLast)
    else none
  | _ => none

/-- buildTosetCallTokens: rewrap sorted list tokens in the call form. -/
def buildTosetCallTokens (sortedListTokens : Tokens) : Tokens :=
  ⟨TokType.ident, tosetBytes⟩ :: ⟨TokType.oparen, [40]⟩ :: sortedListTokens
    ++ [⟨TokType.cparen, [41]⟩]

/-- sortListsInTokens: try the simple list literal shape, then the
toset-wrapped shape; otherwise leave the tokens untouched. -/
def sortListsInTokens (tokens : Tokens) : Tokens × Bool :=
  match checkSimpleListLiteral tokens with
  | some listTokens => trySortSimpleListTokens listTokens
  | none =>
    match checkTosetListCall tokens with
    | some listTokensInsideToset =>
      let sr := trySortSimpleListTokens listTokensInsideToset
      if sr.2 = true then (buildTosetCallTokens sr.1, true) else (tokens, false)
    | none => (tokens, false)

/-- A document body: attribute names with their expression token sequences,
plus nested block bodies (the hclwrite.Body tree as the sorter reads it). -/
inductive Body where
  | mk (attrs : List (List Nat × Tokens)) (blocks : List Body)

/-- Attributes of a body. -/
def bodyAttrs : Body → List (List Nat × Tokens)
  | .mk attrs _ => attrs

mutual
/-- SortListValuesInBody: rewrite each attribute's expression tokens
through sortListsInTokens (writing back exactly the returned tokens) and
recurse into every nested block body. -/
def SortListValuesInBody : Body → Body
  | .mk attrs blocks =>
    .mk (attrs.map fun p => (p.1, (sortListsInTokens p.2).1)) (sortBlocks blocks)

/-- Recursion of SortListValuesInBody over nested blocks. -/
def sortBlocks : List Body → List Body
  | [] => []
  | b :: bs => SortListValuesInBody b :: sortBlocks bs
end

/-- Concatenated bytes of a token sequence. -/
def renderTokens (ts : Tokens) : List Nat := (ts.map Token.bytes).flatten

/-! Concrete tokens used by the example inputs. -/

/-- An open bracket token. -/
def obTok : Token := ⟨TokType.obrack, [91]⟩

/-- A close bracket token. -/
def cbTok : Token := ⟨TokType.cbrack, [93]⟩

/-- An open quote token. -/
def oqTok : Token := ⟨TokType.oquote, [34]⟩

/-- A close quote token. -/
def cqTok : Token := ⟨TokType.cquote, [34]⟩

/-- An open brace token. -/
def obraceTok : Token := ⟨TokType.obrace, [123]⟩

/-- A close brace token. -/
def cbraceTok : Token := ⟨TokType.cbrace, [125]⟩

/-! Generic helper lemmas. -/

/-- Lexicographic byte order is irreflexive. -/
theorem lexLt_irrefl : ∀ l : List Nat, lexLt l l = false
  | [] => rfl
  | a :: as => by simp [lexLt, lexLt_irrefl as]

/-- Every element of a list contributes one emission block to emitElems. -/
theorem emitDecomp (f : ListElement → Nat → Tokens) :
    ∀ (es : List ListElement) (i : Nat) (e : ListElement), e ∈ es →
      ∃ (p q : Tokens) (j : Nat), emitElems f es i = p ++ (f e j ++ q) := by
  intro es
  induction es with
  | nil => intro i e he; exact absurd he (List.not_mem_nil e)
  | cons x xs ih =>
    intro i e he
    rcases List.mem_cons.mp he with rfl | hmem
    · exact ⟨[], emitElems f xs (i + 1), i, by simp [emitElems]⟩
    · obtain ⟨p, q, j, hpq⟩ := ih (i + 1) e hmem
      exact ⟨f x i ++ p, q, j, by simp [emitElems, hpq]⟩

/-- Dropping trailing whitespace is the identity when the last token is not
whitespace. -/
theorem dropTrailingWs_eq_self {l : Tokens} (hne : l ≠ [])
    (h : isWsTok (l.getLastD dTok) = false) : dropTrailingWs l = l := by
  unfold dropTrailingWs
  cases hr : l.reverse with
  | nil => exact absurd (List.reverse_eq_nil_iff.mp hr) hne
  | cons x xs =>
    have hx : l.getLastD dTok = x := by
      rw [List.getLastD_eq_getLast?, List.getLast?_eq_head?_reverse, hr]
      rfl
    rw [hx] at h
    rw [List.dropWhile_cons, h]
    simp [← hr]

/-- Three-way integer test yields lt exactly on less-than. -/
theorem ord3_lt {x y : Int} :
    ((if x < y then Ordering.lt else if x = y then Ordering.eq else Ordering.gt)
      = Ordering.lt) ↔ x < y := by
  by_cases h1 : x < y
  · simp [h1]
  · by_cases h2 : x = y <;> simp [h1, h2]

/-- Three-way integer test yields eq exactly on equality. -/
theorem ord3_eq {x y : Int} :
    ((if x < y then Ordering.lt else if x = y then Ordering.eq else Ordering.gt)
      = Ordering.eq) ↔ x = y := by
  by_cases h1 : x < y
  · simp [h1, ne_of_lt h1]
  · by_cases h2 : x = y <;> simp [h1, h2]

/-- Scaling a mantissa to a common exponent preserves the denoted value. -/
theorem scaledCast (m e f : Int) (h : 0 ≤ e - f) :
    ((m * 10 ^ (e - f).toNat : Int) : ℚ) * (10 : ℚ) ^ f = (m : ℚ) * (10 : ℚ) ^ e := by
  push_cast
  rw [← zpow_natCast (10 : ℚ) (e - f).toNat, Int.toNat_of_nonneg h, mul_assoc,
    ← zpow_add₀ (by norm_num : (10 : ℚ) ≠ 0)]
  rw [sub_add_cancel]

/-- decCmp answers lt exactly when the denoted value is smaller: the
decimal comparison is true magnitude comparison. -/
theorem decCmp_lt_iff (a b : Dec) : decCmp a b = Ordering.lt ↔ decVal a < decVal b := by
  unfold decCmp
  by_cases hd : 0 ≤ a.exp - b.exp
  · have hpow : (0 : ℚ) < (10 : ℚ) ^ b.exp := zpow_pos (by norm_num) _
    simp only [if_pos hd]
    rw [ord3_lt, ← Int.cast_lt (R := ℚ), ← mul_lt_mul_right hpow,
      scaledCast a.mant a.exp b.exp hd]
    exact Iff.rfl
  · have hd' : 0 ≤ b.exp - a.exp := by omega
    have hpow : (0 : ℚ) < (10 : ℚ) ^ a.exp := zpow_pos (by norm_num) _
    simp only [if_neg hd]
    rw [ord3_lt, ← Int.cast_lt (R := ℚ), ← mul_lt_mul_right hpow, neg_sub,
      scaledCast b.mant b.exp a.exp hd']
    exact Iff.rfl

/-- decCmp answers eq exactly when the denoted values agree. -/
theorem decCmp_eq_iff (a b : Dec) : decCmp a b = Ordering.eq ↔ decVal a = decVal b := by
  unfold decCmp decVal
  by_cases hd : 0 ≤ a.exp - b.exp
  · have hpow : ((10 : ℚ) ^ b.exp) ≠ 0 := zpow_ne_zero _ (by norm_num)
    simp only [if_pos hd]
    rw [ord3_eq]
    constructor
    · intro h
      have hx := congrArg (fun z : Int => (z : ℚ) * (10 : ℚ) ^ b.exp) h
      simp only at hx
      rw [scaledCast a.mant a.exp b.exp hd] at hx
      exact hx
    · intro h
      have hx : ((a.mant * 10 ^ (a.exp - b.exp).toNat : Int) : ℚ) * (10 : ℚ) ^ b.exp
          = ((b.mant : Int) : ℚ) * (10 : ℚ) ^ b.exp := by
        rw [scaledCast a.mant a.exp b.exp hd]; exact h
      exact_mod_cast mul_right_cancel₀ hpow hx
  · have hd' : 0 ≤ b.exp - a.exp := by omega
    have hpow : ((10 : ℚ) ^ a.exp) ≠ 0 := zpow_ne_zero _ (by norm_num)
    simp only [if_neg hd]
    rw [ord3_eq, neg_sub]
    constructor
    · intro h
      have hx := congrArg (fun z : Int => (z : ℚ) * (10 : ℚ) ^ a.exp) h
      simp only at hx
      rw [scaledCast b.mant b.exp a.exp hd'] at hx
      exact hx
    · intro h
      have hx : ((b.mant * 10 ^ (b.exp - a.exp).toNat : Int) : ℚ) * (10 : ℚ) ^ a.exp
          = ((a.mant : Int) : ℚ) * (10 : ℚ) ^ a.exp := by
        rw [scaledCast b.mant b.exp a.exp hd']; exact h.symm
      exact_mod_cast (mul_right_cancel₀ hpow hx).symm

/-- decCmp is reflexive into eq. -/
theorem decCmp_self (v : Dec) : decCmp v v = Ordering.eq := (decCmp_eq_iff v v).mpr rfl

/-! Claim C1: the comparator orders numerics first, numerics by magnitude
with byte-key tiebreak, and everything else by byte key; sorting
the list with elements 50, "banana", 10, "apple", 100 yields
10, 50, 100, "apple", "banana". -/

/-- Example input tokens for the list holding 50, "banana", 10, "apple",
100 (quoted strings are oquote/quotedLit/cquote triples). -/
def c1Input : Tokens :=
  [obTok, ⟨TokType.numberLit, [53, 48]⟩, commaTok,
   oqTok, ⟨TokType.quotedLit, [98, 97, 110, 97, 110, 97]⟩, cqTok, commaTok,
   ⟨TokType.numberLit, [49, 48]⟩, commaTok,
   oqTok, ⟨TokType.quotedLit, [97, 112, 112, 108, 101]⟩, cqTok, commaTok,
   ⟨TokType.numberLit, [49, 48, 48]⟩, cbTok]

/-- Expected output tokens: 10, 50, 100, "apple", "banana". -/
def c1Output : Tokens :=
  [obTok, ⟨TokType.numberLit, [49, 48]⟩, commaTok,
   ⟨TokType.numberLit, [53, 48]⟩, commaTok,
   ⟨TokType.numberLit, [49, 48, 48]⟩, commaTok,
   oqTok, ⟨TokType.quotedLit, [97, 112, 112, 108, 101]⟩, cqTok, commaTok,
   oqTok, ⟨TokType.quotedLit, [98, 97, 110, 97, 110, 97]⟩, cqTok, cbTok]

/-- C1: compareListElements orders any numeric element before any
non-numeric element; two numeric elements are ordered by numeric magnitude
with lexicographic byte-key comparison as tiebreak; every other pair is
ordered by lexicographic comparison of raw byte keys; and sorting the list
with elements 50, "banana", 10, "apple", 100 yields the list with elements
10, 50, 100, "apple", "banana". -/
theorem c1_theorem :
    (∀ a b : ListElement, ∀ va : Dec, a.num = some va → b.num = none →
      compareListElements a b = true ∧ compareListElements b a = false)
    ∧ (∀ a b : ListElement, ∀ va vb : Dec, a.num = some va → b.num = some vb →
      (compareListElements a b = true ↔
        decVal va < decVal vb ∨ (decVal va = decVal vb ∧ lexLt a.key b.key = true)))
    ∧ (∀ a b : ListElement, a.num = none → b.num = none →
      compareListElements a b = lexLt a.key b.key)
    ∧ trySortSimpleListTokens c1Input = (c1Output, true) := by
  refine ⟨?_, ?_, ?_, by decide⟩
  · intro a b va ha hb
    constructor <;> simp [compareListElements, ha, hb]
  · intro a b va vb ha hb
    by_cases he : decCmp va vb = Ordering.eq
    · have hveq : decVal va = decVal vb := (decCmp_eq_iff va vb).mp he
      simp [compareListElements, ha, hb, he, hveq]
    · have hvne : ¬ decVal va = decVal vb := fun hx => he ((decCmp_eq_iff va vb).mpr hx)
      simp only [compareListElements, ha, hb, ne_eq, he, not_false_eq_true, if_true,
        decide_eq_true_eq]
      rw [decCmp_lt_iff]
      simp [hvne]
  · intro a b ha hb
    simp [compareListElements, ha, hb]

/-- Numeric element with value 50 and key bytes of 50. -/
def c1NumElem : ListElement :=
  ⟨[], [⟨TokType.numberLit, [53, 48]⟩], [53, 48], some ⟨50, 0⟩⟩

/-- Numeric element with value 10 and key bytes of 10. -/
def c1NumElem10 : ListElement :=
  ⟨[], [⟨TokType.numberLit, [49, 48]⟩], [49, 48], some ⟨10, 0⟩⟩

/-- Non-numeric element "a". -/
def c1StrElem : ListElement :=
  ⟨[], [oqTok, ⟨TokType.quotedLit, [97]⟩, cqTok], [34, 97, 34], none⟩

/-- Witness for C1 at concrete elements. -/
theorem c1_witness :
    compareListElements c1NumElem c1StrElem = true
    ∧ compareListElements c1StrElem c1NumElem = false
    ∧ compareListElements c1NumElem10 c1NumElem = true
    ∧ compareListElements c1StrElem c1StrElem = lexLt c1StrElem.key c1StrElem.key := by
  refine ⟨(c1_theorem.1 _ _ ⟨50, 0⟩ rfl rfl).1, (c1_theorem.1 _ _ ⟨50, 0⟩ rfl rfl).2, ?_,
    c1_theorem.2.2.1 _ _ rfl rfl⟩
  refine (c1_theorem.2.1 _ _ ⟨10, 0⟩ ⟨50, 0⟩ rfl rfl).mpr (Or.inl ?_)
  norm_num [decVal]

/-! Claim C3: a list whose first meaningful content is the ignore
directive comment is left byte-identical. -/

/-- When the first token left after skipping whitespace and newlines is a
comment whose normalized body is the sentinel, checkIgnoreDirective
holds. -/
theorem checkIgnore_of_first (inner : Tokens) (t : Token)
    (h1 : (inner.dropWhile isWsTok).head? = some t)
    (h2 : t.ttype = TokType.comment)
    (h3 : commentDirectiveBody t.bytes = ignoreSentinel) :
    checkIgnoreDirective inner = true := by
  induction inner with
  | nil => simp at h1
  | cons x xs ih =>
    by_cases hw : isWsTok x = true
    · rw [List.dropWhile_cons, if_pos hw] at h1
      have hxw : x.ttype = TokType.newline ∨ x.ttype = TokType.tabs := by
        simpa [isWsTok] using hw
      have hxc : ¬ x.ttype = TokType.comment := by
        rcases hxw with h | h <;> simp [h]
      unfold checkIgnoreDirective
      rw [if_neg hxc, if_neg (by rcases hxw with h | h <;> simp [h])]
      exact ih h1
    · rw [List.dropWhile_cons, if_neg hw] at h1
      have hx : x = t := by simpa using h1
      subst hx
      unfold checkIgnoreDirective
      rw [if_pos h2]
      simpa using h3

/-- The ignore-directive comment for the examples (slash-slash marker). -/
def c3Comment : Token :=
  ⟨TokType.comment,
   [47, 47, 32, 116, 102, 115, 111, 114, 116, 58, 105, 103, 110, 111, 114, 101, 10]⟩

/-- Example list whose first meaningful content is the ignore comment,
followed by unsorted elements "c", "a". -/
def c3Input : Tokens :=
  [obTok, nlTok, ⟨TokType.tabs, [32, 32]⟩, c3Comment,
   oqTok, ⟨TokType.quotedLit, [99]⟩, cqTok, commaTok,
   oqTok, ⟨TokType.quotedLit, [97]⟩, cqTok, nlTok, cbTok]

/-- C3: whenever the first meaningful token inside the brackets (skipping
only whitespace and newline tokens) is a comment whose text, after
stripping a leading marker and trimming whitespace, is exactly the
tfsort:ignore sentinel, the sorter returns the token stream unchanged and
reports no change. -/
theorem c3_theorem (ts : Tokens) (t : Token)
    (hv : isValidListStructure ts = true)
    (h1 : ((innerOf ts).dropWhile isWsTok).head? = some t)
    (h2 : t.ttype = TokType.comment)
    (h3 : commentDirectiveBody t.bytes = ignoreSentinel) :
    trySortSimpleListTokens ts = (ts, false) := by
  have hig := checkIgnore_of_first (innerOf ts) t h1 h2 h3
  unfold trySortSimpleListTokens
  simp [hv, hig]

/-- Witness for C3 at the concrete ignore-directive list. -/
theorem c3_witness : trySortSimpleListTokens c3Input = (c3Input, false) :=
  c3_theorem c3Input c3Comment (by decide) (by decide) rfl (by decide)

/-! Claim C5: empty lists and lists with fewer than two extracted elements
are returned unchanged. -/

/-- Example list with only a whitespace token between the brackets. -/
def c5Empty : Tokens := [obTok, ⟨TokType.tabs, [32]⟩, cbTok]

/-- Example single-element list "only". -/
def c5Single : Tokens :=
  [obTok, oqTok, ⟨TokType.quotedLit, [111, 110, 108, 121]⟩, cqTok, cbTok]

/-- C5: a recognized list whose inner tokens segment into at most one
element is reported unchanged with no modification; in particular the
bracket-space-bracket list and the single-element list "only" are returned
unchanged. -/
theorem c5_theorem :
    (∀ ts : Tokens, isValidListStructure ts = true →
      (extractedOf ts).length ≤ 1 → trySortSimpleListTokens ts = (ts, false))
    ∧ trySortSimpleListTokens c5Empty = (c5Empty, false)
    ∧ trySortSimpleListTokens c5Single = (c5Single, false) := by
  refine ⟨?_, by decide, by decide⟩
  intro ts hv hle
  unfold extractedOf at hle
  unfold trySortSimpleListTokens
  rw [if_neg (by simp [hv])]
  by_cases h2 : innerOf ts = [] ∨ checkIgnoreDirective (innerOf ts) = true
  · rw [if_pos h2]
  · rw [if_neg h2, if_pos (Or.inr hle)]

/-- Witness for C5 at the two-token empty list. -/
theorem c5_witness : trySortSimpleListTokens [obTok, cbTok] = ([obTok, cbTok], false) :=
  c5_theorem.1 [obTok, cbTok] (by decide) (by decide)

/-! Claim C7: numeric classification holds exactly for a single
successfully parsed numeric-literal token, and parse failure silently
downgrades the element without aborting. -/

/-- parseSingleElement always reports success. -/
theorem parseSingleElement_ok (raw : Tokens) : (parseSingleElement raw).2.2 = true := by
  unfold parseSingleElement
  dsimp only
  split <;> rfl

/-- C7: an element is classified numeric exactly when its content tokens
are one numeric-literal token whose bytes parse as a number; a single
numeric-literal token that fails to parse still yields an element, marked
non-numeric; and parseSingleElement always reports success, so the sort
never aborts on an element. -/
theorem c7_theorem :
    (∀ toks : Tokens, ((extractPrimaryTokenBytes toks).2.1).isSome = true ↔
      ∃ t v, toks = [t] ∧ t.ttype = TokType.numberLit ∧ parseJsonNumber t.bytes = some v)
    ∧ (∀ t : Token, t.ttype = TokType.numberLit → parseJsonNumber t.bytes = none →
      parseSingleElement [t] = (some ⟨[], [t], t.bytes, none⟩, false, true))
    ∧ (∀ raw : Tokens, (parseSingleElement raw).2.2 = true) := by
  refine ⟨?_, ?_, ?_⟩
  · intro toks
    match toks with
    | [] => simp [extractPrimaryTokenBytes]
    | [t] =>
      by_cases ht : t.ttype = TokType.numberLit
      · cases hp : parseJsonNumber t.bytes with
        | none =>
          simp only [extractPrimaryTokenBytes, ht, if_true, hp]
          constructor
          · intro h; exact absurd h (by simp)
          · rintro ⟨t', v, ht', _, hp'⟩
            obtain rfl : t = t' := by simpa using ht'
            rw [hp] at hp'; exact absurd hp' (by simp)
        | some v =>
          simp only [extractPrimaryTokenBytes, ht, if_true, hp]
          exact ⟨fun _ => ⟨t, v, rfl, ht, hp⟩, fun _ => rfl⟩
      · simp only [extractPrimaryTokenBytes, ht, if_false]
        constructor
        · intro h; exact absurd h (by simp)
        · rintro ⟨t', v, ht', ht2, _⟩
          obtain rfl : t = t' := by simpa using ht'
          exact absurd ht2 ht
    | t1 :: t2 :: rest =>
      simp only [extractPrimaryTokenBytes]
      constructor
      · intro h; exact absurd h (by simp)
      · rintro ⟨t', v, ht', _, _⟩
        simp at ht'
  · intro t ht hp
    have hws : isWsTok t = false := by simp [isWsTok, ht]
    have hld : isLeadTok t = false := by simp [isLeadTok, ht]
    simp [parseSingleElement, dropTrailingWs, List.dropWhile_cons, hws, hld,
      extractPrimaryTokenBytes, ht, hp]
  · intro raw
    exact parseSingleElement_ok raw

/-- Witness for C7: the token with bytes 50 parses and is numeric, the
token with bytes 050 fails the JSON grammar yet still yields a non-numeric
element, and parseSingleElement reports success on the empty slice. -/
theorem c7_witness :
    ((extractPrimaryTokenBytes [⟨TokType.numberLit, [53, 48]⟩]).2.1).isSome = true
    ∧ parseSingleElement [⟨TokType.numberLit, [48, 53, 48]⟩]
      = (some ⟨[], [⟨TokType.numberLit, [48, 53, 48]⟩], [48, 53, 48], none⟩, false, true)
    ∧ (parseSingleElement []).2.2 = true := by
  refine ⟨(c7_theorem.1 _).mpr ⟨⟨TokType.numberLit, [53, 48]⟩, ⟨50, 0⟩, rfl, rfl, by decide⟩,
    c7_theorem.2.1 ⟨TokType.numberLit, [48, 53, 48]⟩ rfl (by decide),
    c7_theorem.2.2 []⟩

/-! Claim C2: idempotence of the body-level sort. -/

/-- A quoted-string element x with an inline comment written directly after
the separating comma (no space), as in a list holding "x",# 1 then "x"# 2
across two lines. -/
def c2List : Tokens :=
  [obTok, oqTok, ⟨TokType.quotedLit, [120]⟩, cqTok, commaTok,
   ⟨TokType.comment, [35, 32, 49, 10]⟩,
   oqTok, ⟨TokType.quotedLit, [120]⟩, cqTok,
   ⟨TokType.comment, [35, 32, 50, 10]⟩, cbTok]

/-- A document body with the single attribute l holding the list above. -/
def c2Body : Body := .mk [([108], c2List)] []

/-- The expression tokens of the first attribute of a body. -/
def attrTokensOf (b : Body) : Tokens := ((bodyAttrs b).headD ([], [])).2

/-- C2 fails on the code: applying SortListValuesInBody twice to the body
holding the two-element list with inline comments gives output that is not
byte-identical to applying it once.  The first run moves each inline
comment behind the inserted structural comma; the second run re-attaches
the comments to different elements and swaps them again. -/
theorem c2_theorem :
    renderTokens (attrTokensOf (SortListValuesInBody (SortListValuesInBody c2Body)))
      ≠ renderTokens (attrTokensOf (SortListValuesInBody c2Body)) := by decide

/-! Claim C4: stability of the element sort. -/

/-- Default element for indexing. -/
def dElem : ListElement := ⟨[], [], [], none⟩

/-- Elements extracted from the inner tokens of the list holding the two
adjacent number tokens 5 0 and then the single number token 50: both
elements have key bytes 50, the first is non-numeric (two tokens), the
second is numeric. -/
def c4Elems : List ListElement :=
  (extractSimpleListElements
    [⟨TokType.numberLit, [53]⟩, ⟨TokType.numberLit, [48]⟩, commaTok,
     ⟨TokType.numberLit, [53, 48]⟩]).1

/-- C4 as stated fails on the code: the two extracted elements have equal
sort keys (and are not both numeric, so the parenthetical is vacuous), yet
the sort moves the numeric one first, flipping their input order. -/
theorem c4_counterexample :
    c4Elems.map ListElement.key = [[53, 48], [53, 48]]
    ∧ (c4Elems.headD dElem).num = none
    ∧ (c4Elems.getLastD dElem).num = some ⟨50, 0⟩
    ∧ c4Elems.length = 2
    ∧ (sortListElements c4Elems).1 = [c4Elems.getLastD dElem, c4Elems.headD dElem] := by
  decide

/-- Any two elements with the same key and the same numeric annotation are
not strictly ordered by the comparator. -/
theorem class_not_lt {k : List Nat} {v : Option Dec} {a b : ListElement}
    (hak : a.key = k) (han : a.num = v) (hbk : b.key = k) (hbn : b.num = v) :
    compareListElements a b = false := by
  unfold compareListElements
  rw [han, hbn, hak, hbk]
  cases v with
  | none => exact lexLt_irrefl k
  | some d => simp [decCmp_self, lexLt_irrefl]

/-- Inserting an element of the key class places it behind every element of
the class already in the list, so the class subsequence gains it at the
end of its insertion point; formally the filter starts with it. -/
theorem filter_orderedInsert_pos (p : ListElement → Bool) (x : ListElement)
    (hx : p x = true)
    (hall : ∀ y, p y = true → compareListElements y x = false) :
    ∀ l : List ListElement,
      (List.orderedInsert (fun a b => compareListElements b a = false) x l).filter p
        = x :: l.filter p := by
  intro l
  induction l with
  | nil => simp [List.orderedInsert, hx]
  | cons y ys ih =>
    rw [List.orderedInsert]
    by_cases hr : compareListElements y x = false
    · rw [if_pos hr]
      simp [List.filter_cons, hx]
    · rw [if_neg hr]
      have hpy : p y = false := by
        cases hy : p y
        · rfl
        · exact absurd (hall y hy) hr
      simp [List.filter_cons, hpy, ih]

/-- Inserting an element outside the key class does not disturb the class
subsequence. -/
theorem filter_orderedInsert_neg (p : ListElement → Bool) (x : ListElement)
    (hx : p x = false) :
    ∀ l : List ListElement,
      (List.orderedInsert (fun a b => compareListElements b a = false) x l).filter p
        = l.filter p := by
  intro l
  induction l with
  | nil => simp [List.orderedInsert, hx]
  | cons y ys ih =>
    rw [List.orderedInsert]
    by_cases hr : compareListElements y x = false
    · rw [if_pos hr]
      simp [List.filter_cons, hx]
    · rw [if_neg hr]
      simp [List.filter_cons, ih]

/-- C4 amended: the element sort is stable on each class of elements
sharing one sort key and one numeric annotation (same classification and,
when numeric, same value): the subsequence of such elements is preserved
exactly.  The claim as stated omitted the matching-classification
condition; with equal keys and differing classification the numeric
element is moved first, as the counterexample shows. -/
theorem c4_theorem (es : List ListElement) (k : List Nat) (v : Option Dec) :
    ((sortListElements es).1).filter (fun e => decide (e.key = k ∧ e.num = v))
      = es.filter (fun e => decide (e.key = k ∧ e.num = v)) := by
  have hclass : ∀ x y : ListElement,
      decide (x.key = k ∧ x.num = v) = true → decide (y.key = k ∧ y.num = v) = true →
      compareListElements y x = false := by
    intro x y hx hy
    have hx' := of_decide_eq_true hx
    have hy' := of_decide_eq_true hy
    exact class_not_lt hy'.1 hy'.2 hx'.1 hx'.2
  unfold sortListElements
  dsimp only
  induction es with
  | nil => rfl
  | cons x xs ih =>
    rw [List.insertionSort]
    by_cases hx : decide (x.key = k ∧ x.num = v) = true
    · rw [filter_orderedInsert_pos _ x hx (fun y hy => hclass x y hx hy) _, ih,
        List.filter_cons, if_pos hx]
    · have hx' : decide (x.key = k ∧ x.num = v) = false := by
        cases h : decide (x.key = k ∧ x.num = v)
        · rfl
        · exact absurd h hx
      rw [filter_orderedInsert_neg _ x hx' _, ih, List.filter_cons, if_neg hx]

/-! Claim C8: unbalanced nesting and element extraction. -/

/-- flushElem always succeeds, because parseSingleElement always reports
success. -/
theorem flushElem_eq_some (current : Tokens) (acc : List ListElement) :
    ∃ acc', flushElem current acc = some acc' := by
  unfold flushElem
  rcases hp : parseSingleElement current with ⟨eopt, bempty, ok⟩
  have hok : ok = true := by
    have h := parseSingleElement_ok current
    rw [hp] at h
    exact h
  subst hok
  cases eopt <;> cases bempty <;> exact ⟨_, rfl⟩

/-- The extraction loop never reports failure. -/
theorem extractLoopOk : ∀ (ts : Tokens) (pulling : Bool) (level : Int) (current : Tokens)
    (acc : List ListElement), (extractLoop pulling ts level current acc).2 = true := by
  intro ts
  induction ts with
  | nil =>
    intro pulling level current acc
    cases pulling
    · rfl
    · unfold extractLoop
      obtain ⟨acc', h⟩ := flushElem_eq_some current acc
      rw [h]
  | cons tok rest ih =>
    intro pulling level current acc
    cases pulling
    · unfold extractLoop
      dsimp only
      by_cases hcm : levelStep level tok = 0 ∧ tok.ttype = TokType.comma
      · rw [if_pos hcm]
        exact ih true _ _ _
      · rw [if_neg hcm]
        by_cases hrest : rest = []
        · rw [if_pos hrest]
          obtain ⟨acc', h⟩ := flushElem_eq_some (current ++ [tok]) acc
          rw [h]
        · rw [if_neg hrest]
          exact ih false _ _ _
    · unfold extractLoop
      by_cases hp : isPullTok tok = true
      · rw [if_pos hp]
        exact ih true _ _ _
      · rw [if_neg hp]
        obtain ⟨acc', h⟩ := flushElem_eq_some current acc
        rw [h]
        dsimp only
        by_cases hcm : levelStep level tok = 0 ∧ tok.ttype = TokType.comma
        · rw [if_pos hcm]
          exact ih true _ _ _
        · rw [if_neg hcm]
          by_cases hrest : rest = []
          · rw [if_pos hrest]
            obtain ⟨acc'', h2⟩ := flushElem_eq_some [tok] acc'
            rw [h2]
          · rw [if_neg hrest]
            exact ih false _ _ _

/-- A list whose inner nesting is unbalanced: ident c, close brace, comma,
ident a, open brace, comma, ident b. -/
def c8Input : Tokens :=
  [obTok, ⟨TokType.ident, [99]⟩, cbraceTok, commaTok,
   ⟨TokType.ident, [97]⟩, obraceTok, commaTok, ⟨TokType.ident, [98]⟩, cbTok]

/-- What the sorter produces for it: the bracket tokens are reordered. -/
def c8Output : Tokens :=
  [obTok, ⟨TokType.ident, [98]⟩, commaTok, ⟨TokType.ident, [99]⟩, cbraceTok, commaTok,
   ⟨TokType.ident, [97]⟩, obraceTok, cbTok]

/-- C8 fails on the code: extractSimpleListElements never returns failure
(there is no balance check and parseSingleElement always succeeds), and the
unbalanced list above is segmented at a mid-stream depth-zero comma and
reordered instead of being left untouched. -/
theorem c8_theorem :
    (∀ inner : Tokens, (extractSimpleListElements inner).2 = true)
    ∧ trySortSimpleListTokens c8Input = (c8Output, true)
    ∧ c8Output ≠ c8Input := by
  refine ⟨?_, by decide, by decide⟩
  intro inner
  unfold extractSimpleListElements
  exact extractLoopOk inner false 0 [] []

/-! Claim C6: the toset-wrapped list form. -/

/-- An open paren token. -/
def oparenTok : Token := ⟨TokType.oparen, [40]⟩

/-- A close paren token. -/
def cparenTok : Token := ⟨TokType.cparen, [41]⟩

/-- The bracketed list "b", "a". -/
def c6Inner : Tokens :=
  [obTok, oqTok, ⟨TokType.quotedLit, [98]⟩, cqTok, commaTok,
   oqTok, ⟨TokType.quotedLit, [97]⟩, cqTok, cbTok]

/-- The call toset(["b", "a"]). -/
def c6Input : Tokens :=
  ⟨TokType.ident, tosetBytes⟩ :: oparenTok :: c6Inner ++ [cparenTok]

/-- The sorted bracketed list "a", "b". -/
def c6SortedInner : Tokens :=
  [obTok, oqTok, ⟨TokType.quotedLit, [97]⟩, cqTok, commaTok,
   oqTok, ⟨TokType.quotedLit, [98]⟩, cqTok, cbTok]

/-- A token sequence recognized by checkTosetListCall has at least five
tokens. -/
theorem checkToset_shape (ts inner : Tokens) (hc : checkTosetListCall ts = some inner) :
    ∃ t0 t1 t2 t3 t4 rest, ts = t0 :: t1 :: t2 :: t3 :: t4 :: rest := by
  rcases ts with _ | ⟨t0, _ | ⟨t1, _ | ⟨t2, _ | ⟨t3, _ | ⟨t4, rest⟩⟩⟩⟩⟩
  · simp [checkTosetListCall] at hc
  · simp [checkTosetListCall] at hc
  · simp [checkTosetListCall] at hc
  · simp [checkTosetListCall] at hc
  · simp [checkTosetListCall] at hc
  · exact ⟨t0, t1, t2, t3, t4, rest, rfl⟩

/-- C6: for every expression of exactly the call-wrapped form, when the
inner bracketed list sorts to new tokens the whole expression becomes that
list rewrapped in the single-argument call, and when the inner list is not
changed the whole expression is returned unchanged. -/
theorem c6_theorem :
    ∀ ts inner : Tokens, checkTosetListCall ts = some inner →
      (∀ out : Tokens, trySortSimpleListTokens inner = (out, true) →
        sortListsInTokens ts = (buildTosetCallTokens out, true))
      ∧ ((trySortSimpleListTokens inner).2 = false → sortListsInTokens ts = (ts, false)) := by
  intro ts inner hc
  obtain ⟨t0, t1, t2, t3, t4, rest, rfl⟩ := checkToset_shape ts inner hc
  have hc0 := hc
  simp only [checkTosetListCall] at hc
  split at hc
  · rename_i hcond
    obtain ⟨h0, hb, h1, h2, hlastp, hlastb⟩ := hcond
    have hne : (t0 :: t1 :: t2 :: t3 :: t4 :: rest : Tokens) ≠ [] := by simp
    have hx : ¬ (2 ≤ (t0 :: t1 :: t2 :: t3 :: t4 :: rest : Tokens).length
        ∧ ((t0 :: t1 :: t2 :: t3 :: t4 :: rest : Tokens).headD dTok).ttype = TokType.obrack
        ∧ ((t0 :: t1 :: t2 :: t3 :: t4 :: rest : Tokens).getLastD dTok).ttype
            = TokType.cbrack) := by
      rintro ⟨-, hob, -⟩
      rw [show ((t0 :: t1 :: t2 :: t3 :: t4 :: rest : Tokens).headD dTok) = t0 from rfl,
        h0] at hob
      exact absurd hob (by decide)
    have hw0 : ¬ isWsTok t0 = true := by
      unfold isWsTok
      rw [h0]
      decide
    have hlw : isWsTok ((t0 :: t1 :: t2 :: t3 :: t4 :: rest : Tokens).getLastD dTok)
        = false := by
      unfold isWsTok
      rw [hlastp]
      rfl
    have hlit : checkSimpleListLiteral (t0 :: t1 :: t2 :: t3 :: t4 :: rest) = none := by
      unfold checkSimpleListLiteral dropLeadingWs
      rw [List.dropWhile_cons, if_neg hw0, dropTrailingWs_eq_self hne hlw, if_neg hx]
    constructor
    · intro out htr
      unfold sortListsInTokens
      rw [hlit, hc0]
      dsimp only
      rw [htr]
      simp
    · intro hfalse
      unfold sortListsInTokens
      rw [hlit, hc0]
      dsimp only
      rw [if_neg (by simp [hfalse])]
  · exact absurd hc (by simp)

/-- Witness for C6: sorting toset(["b", "a"]) yields toset(["a", "b"]). -/
theorem c6_witness :
    sortListsInTokens c6Input = (buildTosetCallTokens c6SortedInner, true) :=
  (c6_theorem c6Input c6Inner (by decide)).1 c6SortedInner (by decide)

/-! Inversion of trySortSimpleListTokens on a successful sort. -/

/-- A successful trySortSimpleListTokens run produced its output through
exactly one of the two rebuild paths, chosen by hasComments on the sorted
elements. -/
theorem trySortCases (ts out : Tokens) (h : trySortSimpleListTokens ts = (out, true)) :
    (hasComments (sortedOf ts) = true
      ∧ out = rebuildCommentedListTokens (sortedOf ts) (ts.headD dTok) (ts.getLastD dTok))
    ∨ (hasComments (sortedOf ts) = false
      ∧ out = rebuildListTokensFromElements (sortedOf ts) (innerOf ts)
          (ts.headD dTok) (ts.getLastD dTok)) := by
  simp only [trySortSimpleListTokens] at h
  split at h
  · simp at h
  · split at h
    · simp at h
    · split at h
      · simp at h
      · split at h
        · simp at h
        · split at h
          · rename_i hcm
            left
            refine ⟨hcm, ?_⟩
            have h1 := congrArg Prod.fst h
            simpa using h1.symm
          · rename_i hcm
            right
            refine ⟨by simpa using hcm, ?_⟩
            have h1 := congrArg Prod.fst h
            simpa using h1.symm

/-- Compose a middle-decomposition with a list glued on the left. -/
theorem exists_mid_left {α : Type} {w mid : List α} (pre : List α)
    (h : ∃ p q, w = p ++ (mid ++ q)) : ∃ p q, pre ++ w = p ++ (mid ++ q) := by
  obtain ⟨p, q, rfl⟩ := h
  exact ⟨pre ++ p, q, by simp [List.append_assoc]⟩

/-- Compose a middle-decomposition with a list glued on the right. -/
theorem exists_mid_right {α : Type} {w mid : List α} (post : List α)
    (h : ∃ p q, w = p ++ (mid ++ q)) : ∃ p q, w ++ post = p ++ (mid ++ q) := by
  obtain ⟨p, q, rfl⟩ := h
  exact ⟨p, q ++ (post : List α), by simp [List.append_assoc]⟩

/-! Claim C10: sorting permutes the extracted elements and embeds each
element's value tokens contiguously in the output. -/

/-- C10: on every successful sort, the sorted element list is a permutation
of the extracted element list (nothing dropped or duplicated), and the
value tokens of every extracted element appear contiguously, unaltered, in
the rebuilt stream. -/
theorem c10_theorem (ts out : Tokens) (h : trySortSimpleListTokens ts = (out, true)) :
    (sortedOf ts).Perm (extractedOf ts)
    ∧ ∀ e ∈ extractedOf ts, ∃ p q : Tokens,
        out = p ++ ((separateValueAndCommentTokens e.tokens).1 ++ q) := by
  have hperm : (sortedOf ts).Perm (extractedOf ts) := by
    unfold sortedOf sortListElements
    exact List.perm_insertionSort _ _
  refine ⟨hperm, ?_⟩
  intro e he
  have hes : e ∈ sortedOf ts := hperm.mem_iff.mpr he
  rcases trySortCases ts out h with ⟨hc, rfl⟩ | ⟨hc, rfl⟩
  · have h1 : ∃ p q, emitElems
        (fun e i => processElementForCommentedList e i (sortedOf ts).length) (sortedOf ts) 0
        = p ++ ((separateValueAndCommentTokens e.tokens).1 ++ q) := by
      obtain ⟨p1, q1, j, hpq⟩ := emitDecomp
        (fun e i => processElementForCommentedList e i (sortedOf ts).length) (sortedOf ts) 0 e hes
      rw [hpq]
      refine ⟨p1 ++ (if j > 0 then
          e.leadingComments.dropWhile (fun t => t.ttype == TokType.newline)
        else e.leadingComments),
        ((if ¬ endsWithComma (separateValueAndCommentTokens e.tokens).1 = true
              ∧ j < (sortedOf ts).length - 1 then [commaTok] else [])
          ++ ((separateValueAndCommentTokens e.tokens).2
          ++ (if (separateValueAndCommentTokens e.tokens).2 = [] then [nlTok] else []))) ++ q1,
        ?_⟩
      simp [processElementForCommentedList, List.append_assoc]
    unfold rebuildCommentedListTokens
    dsimp only
    exact exists_mid_right _ (exists_mid_right _ (exists_mid_left _ h1))
  · have hnc : e.tokens.any (fun t => t.ttype == TokType.comment) = false := by
      unfold hasComments at hc
      rw [List.any_eq_false] at hc
      have h2 := hc e hes
      cases hany : e.tokens.any (fun t => t.ttype == TokType.comment)
      · rfl
      · exact absurd hany h2
    have hsep : (separateValueAndCommentTokens e.tokens).1 = e.tokens := by
      unfold separateValueAndCommentTokens
      dsimp only
      apply List.filter_eq_self.mpr
      intro a ha
      rw [List.any_eq_false] at hnc
      have h3 := hnc a ha
      simpa using h3
    rw [hsep]
    have h1 : ∃ p q, emitElems
        (fun e i =>
          (if i = 0 ∧ isMultiLineList (sortedOf ts) = true
            then removeLeadingNewlines e.leadingComments else e.leadingComments)
          ++ e.tokens
          ++ (if i < (sortedOf ts).length - 1 then [commaTok] else []))
        (sortedOf ts) 0
        = p ++ (e.tokens ++ q) := by
      obtain ⟨p1, q1, j, hpq⟩ := emitDecomp _ (sortedOf ts) 0 e hes
      rw [hpq]
      refine ⟨p1 ++ (if j = 0 ∧ isMultiLineList (sortedOf ts) = true
          then removeLeadingNewlines e.leadingComments else e.leadingComments),
        (if j < (sortedOf ts).length - 1 then [commaTok] else []) ++ q1, ?_⟩
      simp [List.append_assoc]
    unfold rebuildListTokensFromElements buildInnerTokensForUncommentedList
      constructFinalTokenList
    dsimp only
    exact exists_mid_right _ (exists_mid_right _ (exists_mid_left _ h1))

/-! Claim C9: the comment-aware rebuild layout. -/

/-- Per-element emission exactly as the claim words it: the element's
leading comments, its value tokens, a structural comma (unless the value
already ends in one) unless the element is last, then its inline comment
tokens.  Nothing else is emitted per element. -/
def commentedElementClaim (elem : ListElement) (index total : Nat) : Tokens :=
  elem.leadingComments
    ++ (separateValueAndCommentTokens elem.tokens).1
    ++ (if ¬ endsWithComma (separateValueAndCommentTokens elem.tokens).1 = true
          ∧ index < total - 1 then [commaTok] else [])
    ++ (separateValueAndCommentTokens elem.tokens).2

/-- The rebuild exactly as the claim words it: open bracket, newline, the
per-element emissions above, a final newline before the closing bracket. -/
def rebuildCommentedClaim (elements : List ListElement) (openB closeB : Token) : Tokens :=
  let opening := [openB] ++ (if 0 < elements.length then [nlTok] else [])
  let withElems :=
    opening ++ emitElems (fun e i => commentedElementClaim e i elements.length) elements 0
  withElems ++ ensureTrailingNewline withElems ++ [closeB]

/-- Per-element emission as the amended claim words it: the element's
leading comments minus leading newline tokens for non-first elements, its
value tokens, a structural comma (unless the value already ends in one)
unless the element is last, its inline comment tokens, and a newline when
it has no inline comment tokens. -/
def commentedElementSpec (elem : ListElement) (index total : Nat) : Tokens :=
  (if index = 0 then elem.leadingComments
   else elem.leadingComments.dropWhile (fun t => t.ttype == TokType.newline))
    ++ (separateValueAndCommentTokens elem.tokens).1
    ++ (if ¬ endsWithComma (separateValueAndCommentTokens elem.tokens).1 = true
          ∧ index < total - 1 then [commaTok] else [])
    ++ (separateValueAndCommentTokens elem.tokens).2
    ++ (if (separateValueAndCommentTokens elem.tokens).2 = [] then [nlTok] else [])

/-- The rebuild as the amended claim words it: open bracket, newline, the
per-element emissions above, and a newline ensured before the closing
bracket. -/
def rebuildCommentedSpec (elements : List ListElement) (openB closeB : Token) : Tokens :=
  let opening := [openB] ++ (if 0 < elements.length then [nlTok] else [])
  let withElems :=
    opening ++ emitElems (fun e i => commentedElementSpec e i elements.length) elements 0
  withElems ++ ensureTrailingNewline withElems ++ [closeB]

/-- The code's per-element emission agrees with the amended wording. -/
theorem processElement_eq_spec (e : ListElement) (i total : Nat) :
    processElementForCommentedList e i total = commentedElementSpec e i total := by
  cases i with
  | zero => simp [processElementForCommentedList, commentedElementSpec]
  | succ n => simp [processElementForCommentedList, commentedElementSpec]

/-- emitElems only depends on the emission function pointwise. -/
theorem emitElems_congr (f g : ListElement → Nat → Tokens) (h : ∀ e i, f e i = g e i) :
    ∀ (es : List ListElement) (i : Nat), emitElems f es i = emitElems g es i := by
  intro es
  induction es with
  | nil => intro i; rfl
  | cons x xs ih => intro i; simp [emitElems, h, ih]

/-- The code's comment-aware rebuild agrees with the amended wording. -/
theorem rebuildCommented_eq_spec (es : List ListElement) (o c : Token) :
    rebuildCommentedListTokens es o c = rebuildCommentedSpec es o c := by
  unfold rebuildCommentedListTokens rebuildCommentedSpec
  rw [emitElems_congr (fun e i => processElementForCommentedList e i es.length)
    (fun e i => commentedElementSpec e i es.length)
    (fun e i => processElement_eq_spec e i es.length) es 0]

/-- A list whose second element carries only a leading comment: newline,
comment # bee, element "b", comma, newline, element "a", newline. -/
def c9CxInput : Tokens :=
  [obTok, nlTok, ⟨TokType.comment, [35, 32, 98, 101, 101, 10]⟩,
   oqTok, ⟨TokType.quotedLit, [98]⟩, cqTok, commaTok, nlTok,
   oqTok, ⟨TokType.quotedLit, [97]⟩, cqTok, nlTok, cbTok]

/-- C9 as stated fails on the code: in the list above an element carries a
leading comment, yet the sorter's output is not the claimed comment-aware
emission (leading-only comments take the comment-free rebuild path, and the
claimed emission also misses the newline handling). -/
theorem c9_counterexample :
    (∃ e ∈ sortedOf c9CxInput,
      (e.leadingComments ++ e.tokens).any (fun t => t.ttype == TokType.comment) = true)
    ∧ (trySortSimpleListTokens c9CxInput).2 = true
    ∧ (trySortSimpleListTokens c9CxInput).1
        ≠ rebuildCommentedClaim (sortedOf c9CxInput)
            (c9CxInput.headD dTok) (c9CxInput.getLastD dTok) := by
  decide

/-- C9 amended: whenever a successful sort takes the comment-aware rebuild
path, which is triggered exactly when some element's value tokens contain
an inline comment token, the output is the amended emission: a newline
after the opening bracket, then each element as its leading comments (minus
leading newline tokens for non-first elements), its value tokens, a
structural comma (unless the value already ends in one) unless it is last,
its inline comment tokens, then a newline when it has no inline comment
tokens; a final newline is ensured before the closing bracket. -/
theorem c9_theorem (ts out : Tokens) (h : trySortSimpleListTokens ts = (out, true))
    (hc : hasComments (sortedOf ts) = true) :
    out = rebuildCommentedSpec (sortedOf ts) (ts.headD dTok) (ts.getLastD dTok) := by
  rcases trySortCases ts out h with ⟨_, rfl⟩ | ⟨hcf, _⟩
  · exact rebuildCommented_eq_spec _ _ _
  · simp [hcf] at hc

/-- The single-line list "b" with inline comment # x, then "a", then "c". -/
def c9WInput : Tokens :=
  [obTok, oqTok, ⟨TokType.quotedLit, [98]⟩, cqTok, commaTok, ⟨TokType.tabs, [32, 32]⟩,
   ⟨TokType.comment, [35, 32, 120, 10]⟩,
   oqTok, ⟨TokType.quotedLit, [97]⟩, cqTok, commaTok,
   oqTok, ⟨TokType.quotedLit, [99]⟩, cqTok, cbTok]

/-- The sorter's output for the list above. -/
def c9WOut : Tokens :=
  [obTok, nlTok, oqTok, ⟨TokType.quotedLit, [97]⟩, cqTok, commaTok, nlTok,
   oqTok, ⟨TokType.quotedLit, [98]⟩, cqTok, commaTok, ⟨TokType.tabs, [32, 32]⟩, commaTok,
   ⟨TokType.comment, [35, 32, 120, 10]⟩,
   oqTok, ⟨TokType.quotedLit, [99]⟩, cqTok, nlTok, cbTok]

/-- Witness for the amended C9 at the inline-comment list. -/
theorem c9_witness :
    trySortSimpleListTokens c9WInput = (c9WOut, true)
    ∧ c9WOut = rebuildCommentedSpec (sortedOf c9WInput)
        (c9WInput.headD dTok) (c9WInput.getLastD dTok) :=
  ⟨by decide, c9_theorem c9WInput c9WOut (by decide) (by decide)⟩

/-- Witness for C10 at the mixed numeric-and-string example list. -/
theorem c10_witness :
    (sortedOf c1Input).Perm (extractedOf c1Input)
    ∧ ∀ e ∈ extractedOf c1Input, ∃ p q : Tokens,
        c1Output = p ++ ((separateValueAndCommentTokens e.tokens).1 ++ q) :=
  c10_theorem c1Input c1Output (by decide)

end Tfsort
